import Mathlib

/-!
Verification development for the Reddit-sentiment position engine
(`src/alpha.py`, class `RedditSentimentAlpha`).

Shallow embedding conventions:
* A sentiment record (one row of `sentiment_df`) is an `Obs`; dates are
  modelled as natural numbers ordered like the calendar dates they encode
  (the code compares `pd.to_datetime` values, an order embedding of dates).
* The external Calendar Resolver (`finter.get_trading_days(start, end)`) is
  modelled by a full session calendar passed as a parameter and filtered to
  the inclusive range, per the documented interface (ascending sessions,
  inclusive bounds, empty list when no session is in range).
* A pandas NaN cell is `Option.none`; `fillna(0)` is `Option.getD 0`.
* Sentiment values and positions are rationals (the code works in floats;
  every claim here is about exact algebra, not rounding).
* `DataFrame.pivot` raises `ValueError` on duplicate (index, column) pairs
  and the f-string log line `position.index[0]` raises `IndexError` on an
  empty index, so `get` returns `Except String PosMatrix`.
-/

namespace AlphaModel

/-- One record of `sentiment_df`: columns `[gvkeyiid, date, sentiment, mention_count]`. -/
structure Obs where
  gvkeyiid : String
  date : Nat
  sentiment : ℚ
  mention_count : Nat
deriving DecidableEq, Repr

/-- The position DataFrame: row labels (trading days), column labels
(gvkeyiid strings) and row-major cells; a `none` cell is a NaN. -/
structure PosMatrix where
  index : List Nat
  columns : List String
  rows : List (List (Option ℚ))
deriving DecidableEq, Repr

/-- `finter.get_trading_days(start, end)`: the sessions of the calendar
inside the inclusive range `[s, e]`. -/
def tradingDays (cal : List Nat) (s e : Nat) : List Nat :=
  cal.filter (fun d => s ≤ d && d ≤ e)

/-- Step 2 of `get`: `sentiment_df[(date >= start) & (date <= end)]`. -/
def filterRange (df : List Obs) (s e : Nat) : List Obs :=
  df.filter (fun o => s ≤ o.date && o.date ≤ e)

/-- One cell of `filtered_sentiment.pivot(index='date', columns='gvkeyiid',
values='sentiment')`: the sentiment of the record with the given date and
security key, `none` (NaN) when there is no such record.  (`get` rejects
duplicate (date, gvkeyiid) pairs before this lookup is used, so `find?`
returns the unique match.) -/
def pivotCell (df : List Obs) (d : Nat) (c : String) : Option ℚ :=
  (df.find? (fun o => o.date == d && o.gvkeyiid == c)).map (·.sentiment)

/-- The pivot's column labels: the distinct `gvkeyiid` values of the
filtered records.  (pandas sorts the labels; no property below depends on
column order.) -/
def pivotCols (df : List Obs) : List String :=
  (df.map (·.gvkeyiid)).dedup

/-- Step 4, first half: `pivot.reindex(trading_days)` restricted to one
security column, as the column's cell list down the session sequence. -/
def reindexCol (df : List Obs) (td : List Nat) (c : String) : List (Option ℚ) :=
  td.map (fun d => pivotCell df d c)

/-- One step of pandas `ffill(limit=…)` down a column.  The state carries
the last seen value together with the number of consecutive cells already
filled from it. -/
def ffillGo (limit : Nat) : Option (ℚ × Nat) → List (Option ℚ) → List (Option ℚ)
  | _, [] => []
  | _, some v :: xs => some v :: ffillGo limit (some (v, 0)) xs
  | none, none :: xs => none :: ffillGo limit none xs
  | some (v, k), none :: xs =>
      if k < limit then some v :: ffillGo limit (some (v, k + 1)) xs
      else none :: ffillGo limit (some (v, k + 1)) xs

/-- pandas `Series.ffill(limit=…)`: a NaN cell takes the last non-NaN value
above it, but at most `limit` consecutive NaN cells are filled from it. -/
def ffillLimit (limit : Nat) (col : List (Option ℚ)) : List (Option ℚ) :=
  ffillGo limit none col

/-- Step 4 complete, per cell: `pivot.reindex(trading_days).ffill(limit=5).fillna(0)`
at session index `i` of column `c`. -/
def alignedCell (df : List Obs) (td : List Nat) (c : String) (i : Nat) : ℚ :=
  (((ffillLimit 5 (reindexCol df td c)).getD i none).getD 0)

/-- Absolute value on ℚ, written out so concrete runs reduce in the kernel. -/
def rabs (x : ℚ) : ℚ :=
  if x < 0 then -x else x

/-- `aligned.abs().sum(axis=1)` at session index `i`, summed over the pivot
columns (column sanitation happens only at step 10, after normalization). -/
def rowAbsSum (df : List Obs) (td : List Nat) (cols : List String) (i : Nat) : ℚ :=
  (cols.map (fun c => rabs (alignedCell df td c i))).sum

/-- Step 5: `aligned.div(aligned.abs().sum(axis=1).replace(0, np.nan), axis=0)`.
A zero row sum is replaced by NaN and dividing by NaN gives NaN. -/
def weightCell (df : List Obs) (td : List Nat) (cols : List String) (c : String) (i : Nat) :
    Option ℚ :=
  if rowAbsSum df td cols i = 0 then none
  else some (alignedCell df td c i / rowAbsSum df td cols i)

/-- Step 6 after `weights.fillna(0)`: `weights * 1e8 * self.leverage`. -/
def positionCell (df : List Obs) (td : List Nat) (cols : List String) (lev : ℚ)
    (c : String) (i : Nat) : ℚ :=
  (weightCell df td cols c i).getD 0 * 100000000 * lev

/-- Step 7: `position.shift(1)` — row `i` takes row `i - 1`'s value, row 0
becomes NaN, the last pre-shift row's value drops off the end. -/
def shiftedCell (df : List Obs) (td : List Nat) (cols : List String) (lev : ℚ)
    (c : String) (i : Nat) : Option ℚ :=
  if i = 0 then none else some (positionCell df td cols lev c (i - 1))

/-- Step 9: `clip(-1e8, 1e8)` — values below the lower bound become the
lower bound, values above the upper bound become the upper bound. -/
def clip (x : ℚ) : ℚ :=
  if x < -100000000 then -100000000 else if 100000000 < x then 100000000 else x

/-- Steps 7–9 per cell: shift, `fillna(0)`, clip. -/
def finalCell (df : List Obs) (td : List Nat) (cols : List String) (lev : ℚ)
    (c : String) (i : Nat) : ℚ :=
  clip ((shiftedCell df td cols lev c i).getD 0)

/-- The early-return value of `get` when the filtered store is empty:
`pd.DataFrame(index=trading_days, columns=[], dtype=float)`. -/
def emptyMatrix (td : List Nat) : PosMatrix :=
  { index := td, columns := [], rows := td.map (fun _ => []) }

/-- Step 10: `[col for col in position.columns if len(str(col)) == 9]`. -/
def validColumns (cols : List String) : List String :=
  cols.filter (fun c => c.length == 9)

/-- The matrix `get` returns on its main path: rows for every trading day,
columns sanitized to 9-character keys, cells from the full pipeline
(normalization still ranges over all pivot columns, since the sanitation
happens after it in the code). -/
def mainMatrix (filtered : List Obs) (td : List Nat) (lev : ℚ) : PosMatrix :=
  { index := td
    columns := validColumns (pivotCols filtered)
    rows := (List.range td.length).map
      (fun i => (validColumns (pivotCols filtered)).map
        (fun c => some (finalCell filtered td (pivotCols filtered) lev c i))) }

/-- `RedditSentimentAlpha.get(start, end)` (alpha.py lines 36–100).

Pipeline: fetch trading days, filter the store to the inclusive range,
short-circuit when the filtered store is empty, pivot (raising `ValueError`
on duplicate (date, gvkeyiid) pairs, as `DataFrame.pivot` does), reindex to
the sessions, `ffill(limit=5)`, `fillna(0)`, row-normalize with the
divide-by-zero guard, scale by `1e8 * leverage`, shift by one session,
`fillna(0)`, clip to `[-1e8, 1e8]`, keep only 9-character columns.  The
closing log line evaluates `position.index[0]`, which raises `IndexError`
when the session list is empty (only the early-return path avoids it). -/
def get (store : List Obs) (lev : ℚ) (cal : List Nat) (s e : Nat) :
    Except String PosMatrix :=
  let td := tradingDays cal s e
  let filtered := filterRange store s e
  if filtered.isEmpty then
    .ok (emptyMatrix td)
  else if (filtered.map (fun o => (o.date, o.gvkeyiid))).Nodup then
    if td.isEmpty then
      .error "IndexError: index 0 is out of bounds for axis 0 with size 0"
    else
      .ok (mainMatrix filtered td lev)
  else .error "ValueError: Index contains duplicate entries, cannot reshape"

/-- The label-based cell lookup that pandas alignment performs: the cell of
the row labelled `d` at the column labelled `c`, `none` when the label is
absent from either axis (or the cell itself is NaN). -/
def lookupCell (M : PosMatrix) (d : Nat) (c : String) : Option ℚ :=
  match (M.index.zip M.rows).find? (fun x => x.1 == d), M.columns.findIdx? (· == c) with
  | some x, some j => x.2.getD j none
  | _, _ => none

/-- `index.min()` of a position frame (0 as junk value on an empty index;
`validate` only evaluates it on nonempty outputs). -/
def idxMin (l : List Nat) : Nat :=
  l.min?.getD 0

/-- `index.max()` of a position frame. -/
def idxMax (l : List Nat) : Nat :=
  l.max?.getD 0

/-- `validate`'s comparison (alpha.py lines 133–139): slice both outputs to
the overlap window `[lo, hi]` by row label, subtract with label alignment
on both axes (a label present on one side only gives NaN, which the sums
skip), take absolute values, and sum over all cells. -/
def totalAbsDiff (A B : PosMatrix) (lo hi : Nat) : ℚ :=
  (((A.index ++ B.index).dedup.filter (fun d => lo ≤ d && d ≤ hi)).map
    (fun d => (((A.columns ++ B.columns).dedup).map
      (fun c =>
        match lookupCell A d c, lookupCell B d c with
        | some a, some b => rabs (a - b)
        | _, _ => 0)).sum)).sum

/-- The start-independence experiment of `validate` for two arbitrary start
dates: run `get` twice against the same end date, compute the overlap
window from the two row indices, and total the cell-wise absolute
differences there; `none` when either run raises. -/
def startEndDiff (store : List Obs) (lev : ℚ) (cal : List Nat) (s1 s2 e : Nat) :
    Option ℚ :=
  match get store lev cal s1 e, get store lev cal s2 e with
  | .ok M1, .ok M2 =>
      some (totalAbsDiff M1 M2 (max (idxMin M1.index) (idxMin M2.index))
        (min (idxMax M1.index) (idxMax M2.index)))
  | _, _ => none

/-!
Kernel-evaluable twins of the pipeline.  The `Rat` field operations are
`@[irreducible]` in this toolchain, so concrete runs of `get` cannot be
checked by `decide` directly.  The `q…` operations below compute the same
rationals through the reducible smart constructor `mkRat`; each is proved
equal to the corresponding field operation, and `getE`/`startEndDiffE`
are the same pipeline written with them, proved equal to `get` and
`startEndDiff`.  Concrete witnesses evaluate the `…E` forms.
-/

/-- Kernel-reducible ℚ addition (proved equal to `+`). -/
def qadd (a b : ℚ) : ℚ :=
  mkRat (a.num * b.den + b.num * a.den) (a.den * b.den)

/-- Kernel-reducible ℚ subtraction (proved equal to `-`). -/
def qsub (a b : ℚ) : ℚ :=
  mkRat (a.num * b.den - b.num * a.den) (a.den * b.den)

/-- Kernel-reducible ℚ multiplication (proved equal to `*`). -/
def qmul (a b : ℚ) : ℚ :=
  mkRat (a.num * b.num) (a.den * b.den)

/-- Kernel-reducible ℚ division (proved equal to `/`). -/
def qdiv (a b : ℚ) : ℚ :=
  qmul a (Rat.divInt b.den b.num)

/-- Kernel-reducible list sum over ℚ (proved equal to `List.sum`). -/
def qsum (l : List ℚ) : ℚ :=
  l.foldr qadd 0

/-- Twin of `rowAbsSum`. -/
def rowAbsSumE (df : List Obs) (td : List Nat) (cols : List String) (i : Nat) : ℚ :=
  qsum (cols.map (fun c => rabs (alignedCell df td c i)))

/-- Twin of `weightCell`. -/
def weightCellE (df : List Obs) (td : List Nat) (cols : List String) (c : String) (i : Nat) :
    Option ℚ :=
  if rowAbsSumE df td cols i = 0 then none
  else some (qdiv (alignedCell df td c i) (rowAbsSumE df td cols i))

/-- Twin of `positionCell`. -/
def positionCellE (df : List Obs) (td : List Nat) (cols : List String) (lev : ℚ)
    (c : String) (i : Nat) : ℚ :=
  qmul (qmul ((weightCellE df td cols c i).getD 0) 100000000) lev

/-- Twin of `shiftedCell`. -/
def shiftedCellE (df : List Obs) (td : List Nat) (cols : List String) (lev : ℚ)
    (c : String) (i : Nat) : Option ℚ :=
  if i = 0 then none else some (positionCellE df td cols lev c (i - 1))

/-- Twin of `finalCell`. -/
def finalCellE (df : List Obs) (td : List Nat) (cols : List String) (lev : ℚ)
    (c : String) (i : Nat) : ℚ :=
  clip ((shiftedCellE df td cols lev c i).getD 0)

/-- Twin of `mainMatrix`. -/
def mainMatrixE (filtered : List Obs) (td : List Nat) (lev : ℚ) : PosMatrix :=
  { index := td
    columns := validColumns (pivotCols filtered)
    rows := (List.range td.length).map
      (fun i => (validColumns (pivotCols filtered)).map
        (fun c => some (finalCellE filtered td (pivotCols filtered) lev c i))) }

/-- Twin of `get`. -/
def getE (store : List Obs) (lev : ℚ) (cal : List Nat) (s e : Nat) :
    Except String PosMatrix :=
  let td := tradingDays cal s e
  let filtered := filterRange store s e
  if filtered.isEmpty then
    .ok (emptyMatrix td)
  else if (filtered.map (fun o => (o.date, o.gvkeyiid))).Nodup then
    if td.isEmpty then
      .error "IndexError: index 0 is out of bounds for axis 0 with size 0"
    else
      .ok (mainMatrixE filtered td lev)
  else .error "ValueError: Index contains duplicate entries, cannot reshape"

/-- Twin of `totalAbsDiff`. -/
def totalAbsDiffE (A B : PosMatrix) (lo hi : Nat) : ℚ :=
  qsum (((A.index ++ B.index).dedup.filter (fun d => lo ≤ d && d ≤ hi)).map
    (fun d => qsum (((A.columns ++ B.columns).dedup).map
      (fun c =>
        match lookupCell A d c, lookupCell B d c with
        | some a, some b => rabs (qsub a b)
        | _, _ => 0))))

/-- Twin of `startEndDiff`. -/
def startEndDiffE (store : List Obs) (lev : ℚ) (cal : List Nat) (s1 s2 e : Nat) :
    Option ℚ :=
  match getE store lev cal s1 e, getE store lev cal s2 e with
  | .ok M1, .ok M2 =>
      some (totalAbsDiffE M1 M2 (max (idxMin M1.index) (idxMin M2.index))
        (min (idxMax M1.index) (idxMax M2.index)))
  | _, _ => none

/-!
Stored date representation, for the frame condition on the observation
store.  `get` executes `self.sentiment_df['date'] = pd.to_datetime(...)`
(alpha.py line 54): an in-place write to the caller-held DataFrame that
replaces whatever representation the `date` column had (e.g. `YYYYMMDD`
text) by parsed timestamps.
-/

/-- The `date` column's cell representation: raw text not yet parsed, or an
already-parsed timestamp (modelled, like dates everywhere here, as a `Nat`
ordered the way the encoded dates are). -/
inductive DateVal where
  | raw (s : String)
  | parsed (d : Nat)
deriving DecidableEq, Repr

/-- `pd.to_datetime` on one cell: parses raw text, fixes parsed values.
(The numeric reading of the text stands in for timestamp parsing; its only
relevant property is idempotence on already-parsed cells.) -/
def parseDate : DateVal → Nat
  | .raw s => s.toNat?.getD 0
  | .parsed d => d

/-- A record of the caller-held `sentiment_df`, with the `date` column in
whatever representation the caller stored. -/
structure RawObs where
  gvkeyiid : String
  dateVal : DateVal
  sentiment : ℚ
  mention_count : Nat
deriving DecidableEq, Repr

/-- Line 54 of alpha.py: `self.sentiment_df['date'] = pd.to_datetime(self.sentiment_df['date'])`
— the held store after the in-place date-column conversion. -/
def normalizeStore (store : List RawObs) : List RawObs :=
  store.map (fun o => { o with dateVal := .parsed (parseDate o.dateVal) })

/-- The store as the rest of the pipeline reads it (dates parsed). -/
def toObs (store : List RawObs) : List Obs :=
  store.map (fun o => ⟨o.gvkeyiid, parseDate o.dateVal, o.sentiment, o.mention_count⟩)

/-- `get` together with its effect on the held store: the result of the
pipeline, and the store object as it is left after the call (line 54 having
rewritten the `date` column in place). -/
def getWithStore (store : List RawObs) (lev : ℚ) (cal : List Nat) (s e : Nat) :
    Except String PosMatrix × List RawObs :=
  (get (toObs (normalizeStore store)) lev cal s e, normalizeStore store)

/-!
Calendar dates, for `validate`'s lookback-start computation (alpha.py
lines 114–124).  `validate` parses the `YYYYMMDD` integer with
`pd.to_datetime(str(start), format='%Y%m%d')`, subtracts
`pd.Timedelta(days=100)` and `days=50`, and renders back with
`strftime('%Y%m%d')` + `int(...)`.
-/

/-- A structured (proleptic Gregorian) calendar date. -/
structure Date where
  year : Int
  month : Nat
  day : Nat
deriving DecidableEq, Repr

/-- Gregorian leap-year rule. -/
def isLeap (y : Int) : Bool :=
  (y % 4 == 0 && y % 100 != 0) || y % 400 == 0

/-- Length of a month. -/
def daysInMonth (y : Int) (m : Nat) : Nat :=
  if m = 2 then (if isLeap y then 29 else 28)
  else if m = 4 ∨ m = 6 ∨ m = 9 ∨ m = 11 then 30
  else 31

/-- A structurally valid calendar date. -/
def Date.Valid (d : Date) : Prop :=
  1 ≤ d.month ∧ d.month ≤ 12 ∧ 1 ≤ d.day ∧ d.day ≤ daysInMonth d.year d.month

instance (d : Date) : Decidable d.Valid := by
  unfold Date.Valid
  infer_instance

/-- The calendar day before `d`. -/
def prevDay (d : Date) : Date :=
  if 1 < d.day then { d with day := d.day - 1 }
  else if 1 < d.month then
    { year := d.year, month := d.month - 1, day := daysInMonth d.year (d.month - 1) }
  else { year := d.year - 1, month := 12, day := 31 }

/-- `date - pd.Timedelta(days=n)`: `n` steps of calendar-day predecessor. -/
def subDays (n : Nat) (d : Date) : Date :=
  prevDay^[n] d

/-- `pd.to_datetime(str(x), format='%Y%m%d')`: split the 8-digit encoding
into year, month, day fields. -/
def parseYYYYMMDD (x : Nat) : Date :=
  { year := (x / 10000 : Nat), month := x / 100 % 100, day := x % 100 }

/-- `int(d.strftime('%Y%m%d'))`. -/
def formatYYYYMMDD (d : Date) : Nat :=
  d.year.toNat * 10000 + d.month * 100 + d.day

/-- Lines 116–124 of alpha.py: the two synthetic earlier start dates of
`validate`, as `YYYYMMDD` integers — 100 and 50 calendar days before the
real start, computed on the structured date. -/
def validateStartDates (start : Nat) : Nat × Nat :=
  (formatYYYYMMDD (subDays 100 (parseYYYYMMDD start)),
   formatYYYYMMDD (subDays 50 (parseYYYYMMDD start)))

deriving instance DecidableEq for Except

/-- The clone agrees with ℚ addition. -/
lemma qadd_eq (a b : ℚ) : qadd a b = a + b :=
  (Rat.add_def' a b).symm

/-- The clone agrees with ℚ subtraction. -/
lemma qsub_eq (a b : ℚ) : qsub a b = a - b :=
  (Rat.sub_def' a b).symm

/-- The clone agrees with ℚ multiplication. -/
lemma qmul_eq (a b : ℚ) : qmul a b = a * b := by
  rw [Rat.mul_def, Rat.normalize_eq_mkRat]
  rfl

/-- The clone agrees with ℚ division. -/
lemma qdiv_eq (a b : ℚ) : qdiv a b = a / b := by
  rw [Rat.div_def, Rat.inv_def, qdiv, qmul_eq]

/-- The clone agrees with `List.sum`. -/
lemma qsum_eq (l : List ℚ) : qsum l = l.sum := by
  induction l with
  | nil => rfl
  | cons a t ih =>
      rw [qsum, List.foldr_cons, qadd_eq]
      rw [qsum] at ih
      rw [ih, List.sum_cons]

lemma rowAbsSumE_eq (df : List Obs) (td : List Nat) (cols : List String) (i : Nat) :
    rowAbsSumE df td cols i = rowAbsSum df td cols i := by
  rw [rowAbsSumE, qsum_eq]
  rfl

lemma weightCellE_eq (df : List Obs) (td : List Nat) (cols : List String) (c : String)
    (i : Nat) : weightCellE df td cols c i = weightCell df td cols c i := by
  simp only [weightCellE, weightCell, rowAbsSumE_eq, qdiv_eq]

lemma positionCellE_eq (df : List Obs) (td : List Nat) (cols : List String) (lev : ℚ)
    (c : String) (i : Nat) :
    positionCellE df td cols lev c i = positionCell df td cols lev c i := by
  simp only [positionCellE, positionCell, weightCellE_eq, qmul_eq]

lemma shiftedCellE_eq (df : List Obs) (td : List Nat) (cols : List String) (lev : ℚ)
    (c : String) (i : Nat) :
    shiftedCellE df td cols lev c i = shiftedCell df td cols lev c i := by
  simp only [shiftedCellE, shiftedCell, positionCellE_eq]

lemma finalCellE_eq (df : List Obs) (td : List Nat) (cols : List String) (lev : ℚ)
    (c : String) (i : Nat) :
    finalCellE df td cols lev c i = finalCell df td cols lev c i := by
  simp only [finalCellE, finalCell, shiftedCellE_eq]

lemma mainMatrixE_eq (filtered : List Obs) (td : List Nat) (lev : ℚ) :
    mainMatrixE filtered td lev = mainMatrix filtered td lev := by
  simp only [mainMatrixE, mainMatrix, finalCellE_eq]

lemma getE_eq (store : List Obs) (lev : ℚ) (cal : List Nat) (s e : Nat) :
    getE store lev cal s e = get store lev cal s e := by
  simp only [getE, get, mainMatrixE_eq]

lemma totalAbsDiffE_eq (A B : PosMatrix) (lo hi : Nat) :
    totalAbsDiffE A B lo hi = totalAbsDiff A B lo hi := by
  simp only [totalAbsDiffE, totalAbsDiff, qsum_eq, qsub_eq]

lemma startEndDiffE_eq (store : List Obs) (lev : ℚ) (cal : List Nat) (s1 s2 e : Nat) :
    startEndDiffE store lev cal s1 s2 e = startEndDiff store lev cal s1 s2 e := by
  simp only [startEndDiffE, startEndDiff, getE_eq, totalAbsDiffE_eq]

/-- Case analysis for a successful call: either the filtered store was
empty and the structurally-empty matrix came back, or the main pipeline
ran (no duplicate keys, at least one session). -/
lemma get_eq_ok_iff {store : List Obs} {lev : ℚ} {cal : List Nat} {s e : Nat}
    {M : PosMatrix} :
    get store lev cal s e = .ok M ↔
      (filterRange store s e = [] ∧ M = emptyMatrix (tradingDays cal s e)) ∨
      (filterRange store s e ≠ [] ∧
        ((filterRange store s e).map (fun o => (o.date, o.gvkeyiid))).Nodup ∧
        tradingDays cal s e ≠ [] ∧
        M = mainMatrix (filterRange store s e) (tradingDays cal s e) lev) := by
  unfold get
  simp only []
  split_ifs with h1 h2 h3
  · rw [List.isEmpty_iff] at h1
    constructor
    · intro h
      exact Or.inl ⟨h1, (Except.ok.inj h).symm⟩
    · rintro (⟨-, rfl⟩ | ⟨hne, -⟩)
      · rfl
      · exact absurd h1 hne
  · constructor
    · intro h
      exact h.elim
    · rintro (⟨hf, -⟩ | ⟨-, -, htd, -⟩)
      · rw [List.isEmpty_iff] at h1
        exact absurd hf h1
      · rw [List.isEmpty_iff] at h3
        exact absurd h3 htd
  · constructor
    · intro h
      refine Or.inr ⟨?_, h2, ?_, (Except.ok.inj h).symm⟩
      · intro hh
        rw [List.isEmpty_iff] at h1
        exact h1 hh
      · intro hh
        rw [List.isEmpty_iff] at h3
        exact h3 hh
    · rintro (⟨hf, -⟩ | ⟨-, -, -, rfl⟩)
      · rw [List.isEmpty_iff] at h1
        exact absurd hf h1
      · rfl
  · constructor
    · intro h
      exact h.elim
    · rintro (⟨hf, -⟩ | ⟨-, hnd, -, -⟩)
      · rw [List.isEmpty_iff] at h1
        exact absurd hf h1
      · exact absurd hnd h2

/-- `clip` really lands in the platform bounds. -/
lemma clip_bounds (x : ℚ) : -100000000 ≤ clip x ∧ clip x ≤ 100000000 := by
  unfold clip
  split_ifs with h1 h2
  · norm_num
  · norm_num
  · push_neg at h1 h2
    exact ⟨h1, h2⟩

/-- The shift leaves a zero cell everywhere in the first row. -/
lemma finalCell_zero (df : List Obs) (td : List Nat) (cols : List String) (lev : ℚ)
    (c : String) : finalCell df td cols lev c 0 = 0 := by
  norm_num [finalCell, shiftedCell, clip]

/-- A frame without columns has no cells to look up. -/
lemma lookupCell_no_columns {M : PosMatrix} {d : Nat} {c : String}
    (h : M.columns = []) : lookupCell M d c = none := by
  rw [lookupCell, h, List.findIdx?_nil]
  cases (M.index.zip M.rows).find? (fun x => x.1 == d) <;> rfl

/-- C2: when the filtered observation set and the session sequence are both
non-empty, the first row of the matrix `RedditSentimentAlpha.get` returns
is exactly 0.0 in every column, by construction of the one-session shift.
(The session sequence being non-empty is forced by a successful return:
with observations present and no sessions the call raises instead.) -/
theorem first_row_zero {store : List Obs} {lev : ℚ} {cal : List Nat} {s e : Nat}
    {M : PosMatrix} {r : List (Option ℚ)}
    (hne : filterRange store s e ≠ [])
    (hok : get store lev cal s e = .ok M)
    (hr : M.rows.head? = some r) :
    ∀ x ∈ r, x = some 0 := by
  rcases get_eq_ok_iff.mp hok with ⟨hf, -⟩ | ⟨-, -, htd, rfl⟩
  · exact absurd hf hne
  · obtain ⟨m, hm⟩ : ∃ m, (tradingDays cal s e).length = m + 1 :=
      Nat.exists_eq_succ_of_ne_zero (by simpa [List.length_eq_zero] using htd)
    rw [mainMatrix] at hr
    simp only [List.head?_map, hm, List.range_succ_eq_map, List.head?_cons,
      Option.map_some', Option.some.injEq] at hr
    intro x hx
    rw [← hr] at hx
    obtain ⟨c, -, rfl⟩ := List.mem_map.mp hx
    rw [finalCell_zero]

/-- C2 witness: a concrete run with one observation and two sessions. -/
theorem first_row_zero_witness :
    filterRange [(⟨"AAAAAAAAA", 3, 1, 1⟩ : Obs)] 1 10 ≠ [] ∧
    ∀ x ∈ [some (0 : ℚ)], x = some 0 :=
  ⟨by decide,
   @first_row_zero [⟨"AAAAAAAAA", 3, 1, 1⟩] 1 [3, 4] 1 10
     ⟨[3, 4], ["AAAAAAAAA"], [[some 0], [some 100000000]]⟩ [some 0]
     (by decide) (by rw [← getE_eq]; decide) (by decide)⟩

/-- C4: the empty-input conditions.  When the filtered observation set is
empty the call indeed returns normally with the session sequence as row
index and no columns (first conjunct, shown on a representative input with
sessions present, and second conjunct with no sessions either).  But when
the Calendar Resolver returns no sessions while observations exist in
range, the call does **not** return normally: the closing log line
evaluates `position.index[0]` on an empty index and raises `IndexError`
(third conjunct) — contradicting the claim that emptiness is signalled
through matrix shape only. -/
theorem empty_input_behaviour :
    get [] 1 [3, 4] 1 10 = .ok (emptyMatrix [3, 4]) ∧
    get [] 1 [] 1 10 = .ok (emptyMatrix []) ∧
    get [(⟨"AAAAAAAAA", 5, 1, 1⟩ : Obs)] 1 [] 1 10 =
      .error "IndexError: index 0 is out of bounds for axis 0 with size 0" := by
  refine ⟨by decide, by decide, by decide⟩

/-- C5: duplicate `(security_key, date)` pairs are **not** pre-aggregated
by mean: `DataFrame.pivot` raises `ValueError` on them, so `get` raises
rather than returning a matrix — here on two same-day records for the same
security with sentiments 1 and 2 (a mean pre-aggregation would have
produced a defined matrix from the 1.5 cell). -/
theorem duplicate_keys_raise :
    get [(⟨"AAAAAAAAA", 5, 1, 1⟩ : Obs), ⟨"AAAAAAAAA", 5, 2, 1⟩] 1 [5] 1 10 =
      .error "ValueError: Index contains duplicate entries, cannot reshape" := by
  decide

/-- C6: every cell of a successfully returned matrix lies in
`[-MAX_POSITION, MAX_POSITION]` with `MAX_POSITION = 1e8`, for every store,
calendar, range and leverage — the final `clip` is a hard ceiling
independent of leverage. -/
theorem position_bounds {store : List Obs} {lev : ℚ} {cal : List Nat} {s e : Nat}
    {M : PosMatrix} (hok : get store lev cal s e = .ok M) :
    ∀ r ∈ M.rows, ∀ x ∈ r, ∀ v : ℚ, x = some v →
      -100000000 ≤ v ∧ v ≤ 100000000 := by
  rcases get_eq_ok_iff.mp hok with ⟨-, rfl⟩ | ⟨-, -, -, rfl⟩
  · intro r hr x hx
    obtain ⟨-, -, rfl⟩ := List.mem_map.mp hr
    exact absurd hx (List.not_mem_nil x)
  · intro r hr x hx v hv
    obtain ⟨i, -, rfl⟩ := List.mem_map.mp hr
    obtain ⟨c, -, rfl⟩ := List.mem_map.mp hx
    obtain rfl : finalCell _ _ _ lev c i = v := Option.some.inj hv
    exact clip_bounds _

/-- C6 witness: the bounds at a concrete successful run, at the full-notional
cell of its second row. -/
theorem position_bounds_witness :
    get [(⟨"AAAAAAAAA", 3, 1, 1⟩ : Obs)] 1 [3, 4] 1 10 =
      .ok ⟨[3, 4], ["AAAAAAAAA"], [[some 0], [some 100000000]]⟩ ∧
    (-100000000 ≤ (100000000 : ℚ) ∧ (100000000 : ℚ) ≤ 100000000) :=
  ⟨by rw [← getE_eq]; decide,
   @position_bounds [⟨"AAAAAAAAA", 3, 1, 1⟩] 1 [3, 4] 1 10
     ⟨[3, 4], ["AAAAAAAAA"], [[some 0], [some 100000000]]⟩
     (by rw [← getE_eq]; decide)
     [some 100000000] (by decide) (some 100000000) (by decide) 100000000 rfl⟩

/-- C7: no NaN ever escapes — every cell of a successfully returned matrix
is a defined rational (`some` value; a `none` cell is pandas NaN), and in
particular the divide-by-zero guard works: on a session row whose absolute
sentiment sum is zero, every (fillna-ed) weight of that row is 0. -/
theorem no_nan_cells {store : List Obs} {lev : ℚ} {cal : List Nat} {s e : Nat}
    {M : PosMatrix} (hok : get store lev cal s e = .ok M) :
    (∀ r ∈ M.rows, ∀ x ∈ r, ∃ v : ℚ, x = some v) ∧
    (∀ c i, rowAbsSum (filterRange store s e) (tradingDays cal s e)
        (pivotCols (filterRange store s e)) i = 0 →
      (weightCell (filterRange store s e) (tradingDays cal s e)
        (pivotCols (filterRange store s e)) c i).getD 0 = 0) := by
  constructor
  · rcases get_eq_ok_iff.mp hok with ⟨-, rfl⟩ | ⟨-, -, -, rfl⟩
    · intro r hr x hx
      obtain ⟨-, -, rfl⟩ := List.mem_map.mp hr
      exact absurd hx (List.not_mem_nil x)
    · intro r hr x hx
      obtain ⟨i, -, rfl⟩ := List.mem_map.mp hr
      obtain ⟨c, -, rfl⟩ := List.mem_map.mp hx
      exact ⟨_, rfl⟩
  · intro c i h
    simp [weightCell, h]

/-- C7 witness: the invariant at a concrete successful run. -/
theorem no_nan_cells_witness :
    (∀ r ∈ [[some (0 : ℚ)], [some (100000000 : ℚ)]], ∀ x ∈ r, ∃ v : ℚ, x = some v) ∧
    (∀ c i, rowAbsSum (filterRange [(⟨"AAAAAAAAA", 3, 1, 1⟩ : Obs)] 1 10)
        (tradingDays [3, 4] 1 10)
        (pivotCols (filterRange [(⟨"AAAAAAAAA", 3, 1, 1⟩ : Obs)] 1 10)) i = 0 →
      (weightCell (filterRange [(⟨"AAAAAAAAA", 3, 1, 1⟩ : Obs)] 1 10)
        (tradingDays [3, 4] 1 10)
        (pivotCols (filterRange [(⟨"AAAAAAAAA", 3, 1, 1⟩ : Obs)] 1 10)) c i).getD 0 = 0) :=
  @no_nan_cells [⟨"AAAAAAAAA", 3, 1, 1⟩] 1 [3, 4] 1 10
    ⟨[3, 4], ["AAAAAAAAA"], [[some 0], [some 100000000]]⟩
    (by rw [← getE_eq]; decide)

/-- C8 counterexample: the claim that the store is identical before and
after a call fails — a store holding its date as raw text comes back with
the date column rewritten to the parsed form by line 54's in-place
`pd.to_datetime` assignment. -/
theorem store_mutation_counterexample :
    (getWithStore [⟨"AAAAAAAAA", .raw "5", 1, 1⟩] 1 [5] 1 10).2 ≠
      [⟨"AAAAAAAAA", .raw "5", 1, 1⟩] := by
  decide

/-- C8 (amended): a call to `get` mutates the held store only by the
idempotent in-place date normalization of line 54: the records' parsed
content is unchanged, and a later call (with any arguments) on the mutated
store returns exactly the result-and-store it would have produced on the
original store — so no state written by one call influences a later one. -/
theorem store_normalization_frame (store : List RawObs) (lev : ℚ) (cal : List Nat)
    (s e : Nat) :
    toObs (getWithStore store lev cal s e).2 = toObs store ∧
    (getWithStore store lev cal s e).1 = get (toObs store) lev cal s e ∧
    ∀ (lev2 : ℚ) (cal2 : List Nat) (s2 e2 : Nat),
      getWithStore (getWithStore store lev cal s e).2 lev2 cal2 s2 e2 =
        getWithStore store lev2 cal2 s2 e2 := by
  have hto : ∀ st : List RawObs, toObs (normalizeStore st) = toObs st := by
    intro st
    simp [toObs, normalizeStore, List.map_map, Function.comp, parseDate]
  have hnorm : ∀ st : List RawObs, normalizeStore (normalizeStore st) = normalizeStore st := by
    intro st
    simp [normalizeStore, List.map_map, Function.comp, parseDate]
  refine ⟨hto store, by rw [getWithStore, hto store], ?_⟩
  intro lev2 cal2 s2 e2
  show getWithStore (normalizeStore store) lev2 cal2 s2 e2 = getWithStore store lev2 cal2 s2 e2
  rw [getWithStore, getWithStore, hnorm store]

/-- Every month has at least 28 days. -/
lemma daysInMonth_pos (y : Int) (m : Nat) : 1 ≤ daysInMonth y m := by
  unfold daysInMonth
  split_ifs <;> norm_num

/-- No month has more than 31 days. -/
lemma daysInMonth_le (y : Int) (m : Nat) : daysInMonth y m ≤ 31 := by
  unfold daysInMonth
  split_ifs <;> norm_num

/-- The calendar predecessor of a valid date is a valid date. -/
lemma prevDay_valid {d : Date} (h : d.Valid) : (prevDay d).Valid := by
  obtain ⟨y, m, dd⟩ := d
  obtain ⟨h1, h2, h3, h4⟩ := h
  simp only [Date.Valid] at *
  unfold prevDay
  split_ifs with hd hm
  · simp only at hd ⊢
    exact ⟨h1, h2, by omega, by omega⟩
  · simp only at hd hm ⊢
    exact ⟨by omega, by omega, daysInMonth_pos _ _, le_refl _⟩
  · simp only at hd hm ⊢
    refine ⟨by norm_num, by norm_num, by norm_num, ?_⟩
    norm_num [daysInMonth]

/-- One predecessor step lowers the year by at most one. -/
lemma prevDay_year_ge (d : Date) : d.year - 1 ≤ (prevDay d).year := by
  obtain ⟨y, m, dd⟩ := d
  unfold prevDay
  split_ifs <;> simp only <;> omega

/-- `n` predecessor steps keep a valid date valid. -/
lemma subDays_valid (n : Nat) {d : Date} (h : d.Valid) : (subDays n d).Valid := by
  induction n with
  | zero => exact h
  | succ k ih =>
      rw [subDays, Function.iterate_succ_apply']
      exact prevDay_valid ih

/-- `n` predecessor steps lower the year by at most `n`. -/
lemma subDays_year_ge (n : Nat) (d : Date) : d.year - n ≤ (subDays n d).year := by
  induction n with
  | zero => simp [subDays]
  | succ k ih =>
      rw [subDays, Function.iterate_succ_apply']
      rw [subDays] at ih
      have h2 := prevDay_year_ge (prevDay^[k] d)
      push_cast
      omega

/-- Rendering a valid date with a nonnegative year to `YYYYMMDD` and
parsing it back is the identity. -/
lemma parse_format {d : Date} (hv : d.Valid) (hy : 0 ≤ d.year) :
    parseYYYYMMDD (formatYYYYMMDD d) = d := by
  obtain ⟨y, m, dd⟩ := d
  obtain ⟨h1, h2, h3, h4⟩ := hv
  have hdd : dd ≤ 31 := le_trans h4 (daysInMonth_le _ _)
  simp only [parseYYYYMMDD, formatYYYYMMDD, Date.mk.injEq] at *
  refine ⟨?_, ?_, ?_⟩ <;> omega

/-- C9: `validate` computes its two synthetic start dates by calendar
arithmetic on a structured date object — parse the `YYYYMMDD` integer,
subtract 100 resp. 50 calendar days, render back — never by integer
subtraction on the encoding.  Consequently, for every valid input start
date (an 8-digit encoding of a valid calendar date), both synthetic start
encodings decode to valid calendar dates lying exactly 100 resp. 50
calendar days before the start. -/
theorem validate_start_dates_valid (start : Nat)
    (h8 : 10000000 ≤ start) (hv : (parseYYYYMMDD start).Valid) :
    (subDays 100 (parseYYYYMMDD start)).Valid ∧
    (subDays 50 (parseYYYYMMDD start)).Valid ∧
    parseYYYYMMDD (validateStartDates start).1 = subDays 100 (parseYYYYMMDD start) ∧
    parseYYYYMMDD (validateStartDates start).2 = subDays 50 (parseYYYYMMDD start) := by
  have hy : (1000 : Int) ≤ (parseYYYYMMDD start).year := by
    simp only [parseYYYYMMDD]
    omega
  refine ⟨subDays_valid _ hv, subDays_valid _ hv, ?_, ?_⟩
  · refine parse_format (subDays_valid _ hv) ?_
    have := subDays_year_ge 100 (parseYYYYMMDD start)
    omega
  · refine parse_format (subDays_valid _ hv) ?_
    have := subDays_year_ge 50 (parseYYYYMMDD start)
    omega

/-- C9 witness: the synthetic starts of `validate` at `start = 20240115`. -/
theorem validate_start_dates_valid_witness :
    (10000000 ≤ 20240115 ∧ (parseYYYYMMDD 20240115).Valid) ∧
    ((subDays 100 (parseYYYYMMDD 20240115)).Valid ∧
     (subDays 50 (parseYYYYMMDD 20240115)).Valid ∧
     parseYYYYMMDD (validateStartDates 20240115).1 = subDays 100 (parseYYYYMMDD 20240115) ∧
     parseYYYYMMDD (validateStartDates 20240115).2 = subDays 50 (parseYYYYMMDD 20240115)) :=
  ⟨⟨by decide, by decide⟩,
   validate_start_dates_valid 20240115 (by decide) (by decide)⟩

/-- `ffill` leaves a set cell's value in place. -/
lemma ffillGo_keep (lim : Nat) (l : List (Option ℚ)) :
    ∀ (st : Option (ℚ × Nat)) (i : Nat) (v : ℚ),
      l.getD i none = some v → (ffillGo lim st l).getD i none = some v := by
  induction l with
  | nil =>
      intro st i v h
      simp [List.getD] at h
  | cons x xs ih =>
      intro st i v h
      cases i with
      | zero =>
          rw [List.getD_cons_zero] at h
          subst h
          rcases st with - | ⟨w, k⟩
          · simp [ffillGo]
          · simp [ffillGo]
      | succ i =>
          rw [List.getD_cons_succ] at h
          rcases x with - | w
          · rcases st with - | ⟨w, k⟩
            · simpa [ffillGo] using ih _ i v h
            · by_cases hk : k < lim
              · simpa [ffillGo, hk] using ih _ i v h
              · simpa [ffillGo, hk] using ih _ i v h
          · rcases st with - | ⟨w2, k⟩
            · simpa [ffillGo] using ih _ i v h
            · simpa [ffillGo] using ih _ i v h

lemma ffillGo_reach (lim : Nat) (xs : List (Option ℚ)) :
    ∀ (m k : Nat) (v : ℚ),
      (∀ j, j ≤ m → xs.getD j none = none) → m < xs.length → k + m < lim →
      (ffillGo lim (some (v, k)) xs).getD m none = some v := by
  induction xs with
  | nil =>
      intro m k v _ hm _
      simp at hm
  | cons x xs ih =>
      intro m k v hnone hm hk
      have hx : x = none := by
        have := hnone 0 (Nat.zero_le m)
        rwa [List.getD_cons_zero] at this
      subst hx
      have hklim : k < lim := by omega
      cases m with
      | zero => simp [ffillGo, hklim]
      | succ m =>
          have : (ffillGo lim (some (v, k)) (none :: xs)).getD (m + 1) none =
              (ffillGo lim (some (v, k + 1)) xs).getD m none := by
            simp [ffillGo, hklim]
          rw [this]
          refine ih m (k + 1) v ?_ ?_ ?_
          · intro j hj
            have := hnone (j + 1) (by omega)
            rwa [List.getD_cons_succ] at this
          · simpa using Nat.lt_of_succ_lt_succ (by simpa using hm)
          · omega

lemma ffillGo_propagate (lim : Nat) (l : List (Option ℚ)) :
    ∀ (st : Option (ℚ × Nat)) (j i : Nat) (v : ℚ),
      l.getD j none = some v →
      (∀ p, j < p → p ≤ i → l.getD p none = none) →
      j ≤ i → i ≤ j + lim → i < l.length →
      (ffillGo lim st l).getD i none = some v := by
  induction l with
  | nil =>
      intro st j i v _ _ _ _ hlen
      simp at hlen
  | cons x xs ih =>
      intro st j i v hj hgap hji hij hlen
      cases j with
      | zero =>
          rw [List.getD_cons_zero] at hj
          subst hj
          cases i with
          | zero =>
              rcases st with - | ⟨w, k⟩ <;> simp [ffillGo]
          | succ i =>
              have hred : ∀ st2 : Option (ℚ × Nat),
                  (ffillGo lim st2 (some v :: xs)).getD (i + 1) none =
                    (ffillGo lim (some (v, 0)) xs).getD i none := by
                intro st2
                rcases st2 with - | ⟨w, k⟩ <;> simp [ffillGo]
              rw [hred st]
              refine ffillGo_reach lim xs i 0 v ?_ ?_ (by omega)
              · intro p hp
                have := hgap (p + 1) (by omega) (by omega)
                rwa [List.getD_cons_succ] at this
              · simpa using Nat.lt_of_succ_lt_succ (by simpa using hlen)
      | succ j =>
          cases i with
          | zero => omega
          | succ i =>
              rw [List.getD_cons_succ] at hj
              have hgap2 : ∀ p, j < p → p ≤ i → xs.getD p none = none := by
                intro p hp1 hp2
                have := hgap (p + 1) (by omega) (by omega)
                rwa [List.getD_cons_succ] at this
              have hlen2 : i < xs.length := by
                simpa using Nat.lt_of_succ_lt_succ (by simpa using hlen)
              rcases x with - | w
              · rcases st with - | ⟨w2, k⟩
                · simpa [ffillGo] using ih _ j i v hj hgap2 (by omega) (by omega) hlen2
                · by_cases hk : k < lim
                  · simpa [ffillGo, hk] using ih _ j i v hj hgap2 (by omega) (by omega) hlen2
                  · simpa [ffillGo, hk] using ih _ j i v hj hgap2 (by omega) (by omega) hlen2
              · rcases st with - | ⟨w2, k⟩
                · simpa [ffillGo] using ih _ j i v hj hgap2 (by omega) (by omega) hlen2
                · simpa [ffillGo] using ih _ j i v hj hgap2 (by omega) (by omega) hlen2

lemma ffillGo_none (lim : Nat) (l : List (Option ℚ)) :
    ∀ (i : Nat) (st : Option (ℚ × Nat)),
      (∀ p, p ≤ i → i ≤ p + lim → l.getD p none = none) →
      (st = none ∨ ∀ v k, st = some (v, k) → lim ≤ k + i) →
      (ffillGo lim st l).getD i none = none := by
  induction l with
  | nil =>
      intro i st _ _
      simp [ffillGo, List.getD]
  | cons x xs ih =>
      intro i st hnone hst
      cases i with
      | zero =>
          have hx : x = none := by
            have := hnone 0 (le_refl 0) (by omega)
            rwa [List.getD_cons_zero] at this
          subst hx
          rcases hst with rfl | hst
          · simp [ffillGo]
          · rcases st with - | ⟨v, k⟩
            · simp [ffillGo]
            · have hk : lim ≤ k := by simpa using hst v k rfl
              simp [ffillGo, Nat.not_lt.mpr hk]
      | succ i =>
          rcases x with - | w
          · have hnone2 : ∀ p, p ≤ i → i ≤ p + lim → xs.getD p none = none := by
              intro p hp1 hp2
              have := hnone (p + 1) (by omega) (by omega)
              rwa [List.getD_cons_succ] at this
            rcases st with - | ⟨v, k⟩
            · simpa [ffillGo] using ih i none hnone2 (Or.inl rfl)
            · have hk : lim ≤ k + (i + 1) := by
                rcases hst with h | hst
                · exact absurd h (by simp)
                · simpa using hst v k rfl
              have harg : ∀ v2 k2, (some (v, k + 1) : Option (ℚ × Nat)) = some (v2, k2) →
                  lim ≤ k2 + i := by
                intro v2 k2 he
                obtain ⟨rfl, rfl⟩ : v = v2 ∧ k + 1 = k2 := by
                  simpa using he
                omega
              by_cases hklim : k < lim
              · simpa [ffillGo, hklim] using ih i (some (v, k + 1)) hnone2 (Or.inr harg)
              · simpa [ffillGo, hklim] using ih i (some (v, k + 1)) hnone2 (Or.inr harg)
          · by_cases hcase : lim ≤ i
            · have hnone2 : ∀ p, p ≤ i → i ≤ p + lim → xs.getD p none = none := by
                intro p hp1 hp2
                have := hnone (p + 1) (by omega) (by omega)
                rwa [List.getD_cons_succ] at this
              have harg : ∀ v2 k2, (some (w, 0) : Option (ℚ × Nat)) = some (v2, k2) →
                  lim ≤ k2 + i := by
                intro v2 k2 he
                obtain ⟨rfl, rfl⟩ : w = v2 ∧ 0 = k2 := by simpa using he
                omega
              rcases st with - | ⟨v, k⟩
              · simpa [ffillGo] using ih i (some (w, 0)) hnone2 (Or.inr harg)
              · simpa [ffillGo] using ih i (some (w, 0)) hnone2 (Or.inr harg)
            · exfalso
              have := hnone 0 (by omega) (by omega)
              rw [List.getD_cons_zero] at this
              exact Option.noConfusion this

/-- When no observation is dated in `[s1, s2)`, filtering to `[s1, e]` and
to `[s2, e]` select exactly the same records. -/
lemma filterRange_gap_eq {store : List Obs} {s1 s2 e : Nat} (h12 : s1 ≤ s2)
    (hgap : ∀ o ∈ store, ¬(s1 ≤ o.date ∧ o.date < s2)) :
    filterRange store s1 e = filterRange store s2 e := by
  rw [filterRange, filterRange]
  refine List.filter_congr ?_
  intro o ho
  have hg := hgap o ho
  rw [decide_eq_decide.mpr (show s1 ≤ o.date ↔ s2 ≤ o.date by omega)]

/-- Membership in the fetched session sequence. -/
lemma tradingDays_mem {cal : List Nat} {s e d : Nat} :
    d ∈ tradingDays cal s e ↔ d ∈ cal ∧ s ≤ d ∧ d ≤ e := by
  simp [tradingDays, List.mem_filter, and_assoc]

/-- On a strictly ascending calendar, the sessions of `[s1, e]` are the
sessions before `s2` followed by the sessions of `[s2, e]`. -/
lemma tradingDays_split {s1 s2 e : Nat} (h12 : s1 ≤ s2) :
    ∀ {cal : List Nat}, List.Pairwise (· < ·) cal →
      tradingDays cal s1 e =
        cal.filter (fun d => s1 ≤ d && decide (d < s2) && d ≤ e) ++
          tradingDays cal s2 e := by
  intro cal
  induction cal with
  | nil => intro _; rfl
  | cons a t ih =>
      intro hs
      rw [List.pairwise_cons] at hs
      obtain ⟨ha, ht⟩ := hs
      by_cases ha2 : s2 ≤ a
      · have hge : ∀ x ∈ a :: t, s2 ≤ x := by
          intro x hx
          rcases List.mem_cons.mp hx with rfl | hxt
          · exact ha2
          · exact le_of_lt (lt_of_le_of_lt ha2 (ha x hxt))
        have h1 : (a :: t).filter (fun d => s1 ≤ d && decide (d < s2) && d ≤ e) = [] := by
          rw [List.filter_eq_nil_iff]
          intro x hx
          have hx2 := hge x hx
          simp only [Bool.and_eq_true, decide_eq_true_eq, not_and]
          intro hcon
          omega
        have h2 : tradingDays (a :: t) s1 e = tradingDays (a :: t) s2 e := by
          rw [tradingDays, tradingDays]
          refine List.filter_congr ?_
          intro x hx
          have hx2 := hge x hx
          rw [decide_eq_decide.mpr (show s1 ≤ x ↔ s2 ≤ x by omega)]
        rw [h2, h1, List.nil_append]
      · push_neg at ha2
        have hlt : decide (a < s2) = true := decide_eq_true ha2
        have hns2 : decide (s2 ≤ a) = false := by
          simp only [decide_eq_false_iff_not]
          omega
        rw [tradingDays, tradingDays, List.filter_cons, List.filter_cons, List.filter_cons,
          hlt, hns2, Bool.and_true, Bool.false_and, if_neg Bool.false_ne_true]
        by_cases hcond : (decide (s1 ≤ a) && decide (a ≤ e)) = true
        · rw [if_pos hcond, if_pos hcond, List.cons_append]
          have := ih ht
          rw [tradingDays, tradingDays] at this
          rw [this]
        · rw [if_neg hcond, if_neg hcond]
          have := ih ht
          rw [tradingDays, tradingDays] at this
          rw [this]

/-- A security column has no pivot entry at a date earlier than every
observation. -/
lemma pivotCell_eq_none {F : List Obs} {s2 d : Nat} (hF : ∀ o ∈ F, s2 ≤ o.date)
    (hd : d < s2) (c : String) : pivotCell F d c = none := by
  rw [pivotCell, List.find?_eq_none.mpr]
  · rfl
  · intro o ho
    simp only [Bool.and_eq_true, beq_iff_eq, not_and]
    intro hdate
    exfalso
    have := hF o ho
    omega

/-- Reindexing onto prepended earlier sessions only adds unset cells. -/
lemma reindexCol_append_none {F : List Obs} {s2 : Nat} (hF : ∀ o ∈ F, s2 ≤ o.date)
    {pre td2 : List Nat} (hpre : ∀ d ∈ pre, d < s2) (c : String) :
    reindexCol F (pre ++ td2) c =
      List.replicate pre.length none ++ reindexCol F td2 c := by
  rw [reindexCol, List.map_append, reindexCol]
  congr 1
  have : pre.map (fun d => pivotCell F d c) =
      List.replicate (pre.map (fun d => pivotCell F d c)).length none :=
    List.eq_replicate_length.mpr (fun b hb => by
      obtain ⟨d, hd, rfl⟩ := List.mem_map.mp hb
      exact pivotCell_eq_none hF (hpre d hd) c)
  rw [this, List.length_map]

/-- `ffill` passes an all-unset prefix through unchanged (there is no
earlier value to fill from). -/
lemma ffill_replicate_prefix (lim p : Nat) (l : List (Option ℚ)) :
    ffillGo lim none (List.replicate p none ++ l) =
      List.replicate p none ++ ffillGo lim none l := by
  induction p with
  | zero => rfl
  | succ k ih =>
      rw [List.replicate_succ, List.cons_append, List.cons_append]
      show ffillGo lim none (none :: (List.replicate k none ++ l)) = _
      rw [ffillGo, ih]

/-- Any position of an all-`none` list reads `none`. -/
lemma getD_replicate_none (p j : Nat) :
    (List.replicate p (none : Option ℚ)).getD j none = none := by
  induction p generalizing j with
  | zero => rfl
  | succ k ih =>
      cases j with
      | zero => rfl
      | succ j => rw [List.replicate_succ, List.getD_cons_succ, ih]

/-- Aligned cells on the common sessions are unchanged by prepending
earlier sessions that carry no observation. -/
lemma alignedCell_append_shift {F : List Obs} {s2 : Nat} (hF : ∀ o ∈ F, s2 ≤ o.date)
    {pre td2 : List Nat} (hpre : ∀ d ∈ pre, d < s2) (c : String) (i : Nat) :
    alignedCell F (pre ++ td2) c (pre.length + i) = alignedCell F td2 c i := by
  rw [alignedCell, alignedCell, ffillLimit, ffillLimit,
    reindexCol_append_none hF hpre, ffill_replicate_prefix,
    List.getD_append_right _ _ _ _ (by rw [List.length_replicate]; omega),
    List.length_replicate]
  congr 2
  omega

/-- Aligned cells on the prepended earlier sessions read 0. -/
lemma alignedCell_append_pre {F : List Obs} {s2 : Nat} (hF : ∀ o ∈ F, s2 ≤ o.date)
    {pre td2 : List Nat} (hpre : ∀ d ∈ pre, d < s2) (c : String) {j : Nat}
    (hj : j < pre.length) :
    alignedCell F (pre ++ td2) c j = 0 := by
  rw [alignedCell, ffillLimit, reindexCol_append_none hF hpre, ffill_replicate_prefix,
    List.getD_append _ _ _ _ (by rw [List.length_replicate]; omega),
    getD_replicate_none]
  rfl

/-- `rabs` of zero. -/
lemma rabs_zero : rabs 0 = 0 := by
  norm_num [rabs]

/-- Row sums over the common sessions are unchanged by the prepended
sessions. -/
lemma rowAbsSum_append_shift {F : List Obs} {s2 : Nat} (hF : ∀ o ∈ F, s2 ≤ o.date)
    {pre td2 : List Nat} (hpre : ∀ d ∈ pre, d < s2) (cols : List String) (i : Nat) :
    rowAbsSum F (pre ++ td2) cols (pre.length + i) = rowAbsSum F td2 cols i := by
  rw [rowAbsSum, rowAbsSum]
  exact congrArg List.sum
    (List.map_congr_left fun c _ => by rw [alignedCell_append_shift hF hpre])

/-- Row sums on the prepended sessions vanish. -/
lemma rowAbsSum_append_pre {F : List Obs} {s2 : Nat} (hF : ∀ o ∈ F, s2 ≤ o.date)
    {pre td2 : List Nat} (hpre : ∀ d ∈ pre, d < s2) (cols : List String) {j : Nat}
    (hj : j < pre.length) :
    rowAbsSum F (pre ++ td2) cols j = 0 := by
  rw [rowAbsSum]
  refine List.sum_eq_zero ?_
  intro x hx
  obtain ⟨c, -, rfl⟩ := List.mem_map.mp hx
  rw [alignedCell_append_pre hF hpre c hj, rabs_zero]

/-- Scaled positions on the common sessions are unchanged by the prepended
sessions. -/
lemma positionCell_append_shift {F : List Obs} {s2 : Nat} (hF : ∀ o ∈ F, s2 ≤ o.date)
    {pre td2 : List Nat} (hpre : ∀ d ∈ pre, d < s2) (cols : List String) (lev : ℚ)
    (c : String) (i : Nat) :
    positionCell F (pre ++ td2) cols lev c (pre.length + i) =
      positionCell F td2 cols lev c i := by
  simp only [positionCell, weightCell, rowAbsSum_append_shift hF hpre,
    alignedCell_append_shift hF hpre]

/-- Scaled positions on the prepended sessions vanish. -/
lemma positionCell_append_pre {F : List Obs} {s2 : Nat} (hF : ∀ o ∈ F, s2 ≤ o.date)
    {pre td2 : List Nat} (hpre : ∀ d ∈ pre, d < s2) (cols : List String) (lev : ℚ)
    (c : String) {j : Nat} (hj : j < pre.length) :
    positionCell F (pre ++ td2) cols lev c j = 0 := by
  rw [positionCell, weightCell, if_pos (rowAbsSum_append_pre hF hpre cols hj),
    Option.getD_none, zero_mul, zero_mul]

/-- `clip 0 = 0`. -/
lemma clip_zero : clip 0 = 0 := by
  norm_num [clip]

/-- Final cells on the common sessions (post-shift) are unchanged by the
prepended sessions. -/
lemma finalCell_append_shift {F : List Obs} {s2 : Nat} (hF : ∀ o ∈ F, s2 ≤ o.date)
    {pre td2 : List Nat} (hpre : ∀ d ∈ pre, d < s2) (cols : List String) (lev : ℚ)
    (c : String) (i : Nat) :
    finalCell F (pre ++ td2) cols lev c (pre.length + i) =
      finalCell F td2 cols lev c i := by
  rcases Nat.eq_zero_or_pos i with rfl | hi
  · rcases Nat.eq_zero_or_pos pre.length with hp | hp
    · rw [finalCell, finalCell, shiftedCell, shiftedCell]
      rw [hp]
      norm_num
    · rw [finalCell, finalCell, shiftedCell, shiftedCell, if_neg (by omega), if_pos rfl,
        positionCell_append_pre hF hpre cols lev c (by omega : pre.length + 0 - 1 < pre.length)]
      rfl
  · rw [finalCell, finalCell, shiftedCell, shiftedCell, if_neg (by omega), if_neg (by omega)]
    have : pre.length + i - 1 = pre.length + (i - 1) := by omega
    rw [this, positionCell_append_shift hF hpre cols lev c (i - 1)]

/-- The rows of the main-path matrix over prepended early sessions are some
junk rows followed by exactly the shorter run's rows. -/
lemma mainMatrix_rows_append {F : List Obs} {s2 : Nat} (hF : ∀ o ∈ F, s2 ≤ o.date)
    {pre td2 : List Nat} (hpre : ∀ d ∈ pre, d < s2) (lev : ℚ) :
    ∃ junk : List (List (Option ℚ)),
      junk.length = pre.length ∧
      (mainMatrix F (pre ++ td2) lev).rows = junk ++ (mainMatrix F td2 lev).rows := by
  refine ⟨(List.range pre.length).map
    (fun i => (validColumns (pivotCols F)).map
      (fun c => some (finalCell F (pre ++ td2) (pivotCols F) lev c i))), by simp, ?_⟩
  rw [mainMatrix, mainMatrix]
  simp only
  rw [List.length_append, List.range_add, List.map_append, List.map_map]
  congr 1
  refine List.map_congr_left ?_
  intro i _
  simp only [Function.comp_apply]
  refine List.map_congr_left ?_
  intro c _
  rw [finalCell_append_shift hF hpre]

/-- `find?` by date over a zipped frame skips a leading block whose dates
all differ from the target. -/
lemma find?_zip_append_skip {A B : List Nat} {RA RB : List (List (Option ℚ))} {d : Nat}
    (hlen : A.length = RA.length) (hA : ∀ x ∈ A, x ≠ d) :
    ((A ++ B).zip (RA ++ RB)).find? (fun x => x.1 == d) =
      (B.zip RB).find? (fun x => x.1 == d) := by
  rw [List.zip_append hlen, List.find?_append]
  have h0 : (A.zip RA).find? (fun x => x.1 == d) = none := by
    rw [List.find?_eq_none]
    rintro ⟨a, r⟩ hx
    have ha := (List.of_mem_zip hx).1
    simpa using hA a ha
  rw [h0, Option.none_or]

/-- If label-based lookups agree on the whole slice window, `validate`'s
total absolute difference over it is zero. -/
lemma totalAbsDiff_eq_zero {A B : PosMatrix} {lo hi : Nat}
    (hcell : ∀ d, lo ≤ d → d ≤ hi → ∀ c, lookupCell A d c = lookupCell B d c) :
    totalAbsDiff A B lo hi = 0 := by
  rw [totalAbsDiff]
  refine List.sum_eq_zero ?_
  intro x hx
  obtain ⟨d, hd, rfl⟩ := List.mem_map.mp hx
  have hdw : lo ≤ d ∧ d ≤ hi := by
    have := (List.mem_filter.mp hd).2
    simpa using this
  refine List.sum_eq_zero ?_
  intro y hy
  obtain ⟨c, -, rfl⟩ := List.mem_map.mp hy
  rw [hcell d hdw.1 hdw.2 c]
  cases lookupCell B d c with
  | none => rfl
  | some a =>
      show rabs (a - a) = 0
      rw [sub_self, rabs_zero]

/-- A nonempty Nat list has a least element, and it is a member that bounds
the list from below. -/
lemma min?_spec {l : List Nat} (hne : l ≠ []) :
    ∃ m, l.min? = some m ∧ m ∈ l := by
  cases hm : l.min? with
  | none =>
      rw [List.min?_eq_none_iff] at hm
      exact absurd hm hne
  | some m =>
      exact ⟨m, rfl, List.min?_mem min_choice hm⟩

/-- Filtering two pointwise-related lists with predicates that agree across
the relation keeps them pointwise related. -/
lemma forall₂_filter {α β : Type} {R : α → β → Prop} {p : α → Bool} {q : β → Bool}
    (hpq : ∀ a b, R a b → p a = q b) :
    ∀ {l1 : List α} {l2 : List β}, List.Forall₂ R l1 l2 →
      List.Forall₂ R (l1.filter p) (l2.filter q) := by
  intro l1 l2 h
  induction h with
  | nil => exact List.Forall₂.nil
  | @cons a b t1 t2 hab htail ih =>
      rw [List.filter_cons, List.filter_cons, ← hpq a b hab]
      by_cases hpa : p a
      · simp only [hpa, if_pos]
        exact List.Forall₂.cons hab ih
      · simp only [hpa, Bool.false_eq_true, if_false]
        exact ih

/-- Mapping two pointwise-related lists with functions that agree across
the relation gives equal lists. -/
lemma forall₂_map_eq {α β γ : Type} {R : α → β → Prop} (f : α → γ) (g : β → γ)
    (hfg : ∀ a b, R a b → f a = g b) :
    ∀ {l1 : List α} {l2 : List β}, List.Forall₂ R l1 l2 → l1.map f = l2.map g := by
  intro l1 l2 h
  induction h with
  | nil => rfl
  | cons hab _ ih => simp [List.map_cons, hfg _ _ hab, ih]

/-- Pivot cells at session dates agree across two stores that can differ
only in sentiments of off-session observations. -/
lemma pivotCell_forall₂ {s e : Nat} {cal : List Nat} :
    ∀ {F1 F2 : List Obs},
      List.Forall₂ (fun a b => a.gvkeyiid = b.gvkeyiid ∧ a.date = b.date ∧
        (a.sentiment = b.sentiment ∨
          (s ≤ a.date ∧ a.date ≤ e ∧ a.date ∉ tradingDays cal s e))) F1 F2 →
      ∀ d ∈ tradingDays cal s e, ∀ c, pivotCell F1 d c = pivotCell F2 d c := by
  intro F1 F2 h
  induction h with
  | nil => intro d _ c; rfl
  | @cons a b t1 t2 hab htail ih =>
      intro d hd c
      have hpred : (b.date == d && b.gvkeyiid == c) = (a.date == d && a.gvkeyiid == c) := by
        rw [hab.1, hab.2.1]
      by_cases hpa : (a.date == d && a.gvkeyiid == c) = true
      · have e1 : List.find? (fun o => o.date == d && o.gvkeyiid == c) (a :: t1) = some a :=
          List.find?_cons_of_pos _ hpa
        have e2 : List.find? (fun o => o.date == d && o.gvkeyiid == c) (b :: t2) = some b :=
          List.find?_cons_of_pos _ (hpred.trans hpa)
        rw [pivotCell, pivotCell, e1, e2]
        simp only [Option.map_some', Option.some.injEq]
        rcases hab.2.2 with hs | ⟨-, -, hout⟩
        · exact hs
        · exfalso
          have had : a.date = d := by
            have hpa2 := hpa
            simp only [Bool.and_eq_true, beq_iff_eq] at hpa2
            exact hpa2.1
          rw [had] at hout
          exact hout hd
      · have e1 : List.find? (fun o => o.date == d && o.gvkeyiid == c) (a :: t1) =
            List.find? (fun o => o.date == d && o.gvkeyiid == c) t1 :=
          List.find?_cons_of_neg _ hpa
        have e2 : List.find? (fun o => o.date == d && o.gvkeyiid == c) (b :: t2) =
            List.find? (fun o => o.date == d && o.gvkeyiid == c) t2 :=
          List.find?_cons_of_neg _ (fun hq => hpa (hpred.symm.trans hq))
        rw [pivotCell, pivotCell, e1, e2]
        exact ih d hd c

/-- C10: off-session observations are inert — two stores that agree except
possibly in the sentiment values of observations dated inside `[s, e]` but
on no trading session produce identical results from
`RedditSentimentAlpha.get`, because reindexing onto the session sequence
drops those pivot rows before the forward-fill. -/
theorem off_session_observations_inert {S1 S2 : List Obs} {lev : ℚ} {cal : List Nat}
    {s e : Nat}
    (h : List.Forall₂ (fun a b =>
      a.gvkeyiid = b.gvkeyiid ∧ a.date = b.date ∧
      (a.sentiment = b.sentiment ∨
        (s ≤ a.date ∧ a.date ≤ e ∧ a.date ∉ tradingDays cal s e))) S1 S2) :
    get S1 lev cal s e = get S2 lev cal s e := by
  have hfilter : List.Forall₂ (fun a b =>
      a.gvkeyiid = b.gvkeyiid ∧ a.date = b.date ∧
      (a.sentiment = b.sentiment ∨
        (s ≤ a.date ∧ a.date ≤ e ∧ a.date ∉ tradingDays cal s e)))
      (filterRange S1 s e) (filterRange S2 s e) := by
    refine forall₂_filter ?_ h
    intro a b hab
    simp only [hab.2.1]
  have hpairs : (filterRange S1 s e).map (fun o => (o.date, o.gvkeyiid)) =
      (filterRange S2 s e).map (fun o => (o.date, o.gvkeyiid)) :=
    forall₂_map_eq _ _ (fun a b hab => by rw [hab.1, hab.2.1]) hfilter
  have hcols : pivotCols (filterRange S1 s e) = pivotCols (filterRange S2 s e) := by
    rw [pivotCols, pivotCols,
      forall₂_map_eq (·.gvkeyiid) (·.gvkeyiid) (fun a b hab => hab.1) hfilter]
  have hcell := pivotCell_forall₂ hfilter
  have halig : ∀ c i, alignedCell (filterRange S1 s e) (tradingDays cal s e) c i =
      alignedCell (filterRange S2 s e) (tradingDays cal s e) c i := by
    intro c i
    rw [alignedCell, alignedCell, reindexCol, reindexCol,
      List.map_congr_left (fun d hd => hcell d hd c)]
  have hsum : ∀ cols i, rowAbsSum (filterRange S1 s e) (tradingDays cal s e) cols i =
      rowAbsSum (filterRange S2 s e) (tradingDays cal s e) cols i := by
    intro cols i
    rw [rowAbsSum, rowAbsSum]
    exact congrArg List.sum (List.map_congr_left fun c _ => by rw [halig])
  have hfinal : ∀ cols c i, finalCell (filterRange S1 s e) (tradingDays cal s e)
      cols lev c i =
      finalCell (filterRange S2 s e) (tradingDays cal s e) cols lev c i := by
    intro cols c i
    simp only [finalCell, shiftedCell, positionCell, weightCell, halig, hsum]
  have hmain : mainMatrix (filterRange S2 s e) (tradingDays cal s e) lev =
      mainMatrix (filterRange S1 s e) (tradingDays cal s e) lev := by
    simp only [mainMatrix, hcols, hfinal]
  by_cases hE : filterRange S1 s e = []
  · have hE2 : filterRange S2 s e = [] := by
      have hl := hfilter.length_eq
      rw [hE] at hl
      exact List.length_eq_zero.mp hl.symm
    unfold get
    simp only [hE, hE2]
  · have hE2 : filterRange S2 s e ≠ [] := by
      intro hc
      have hl := hfilter.length_eq
      rw [hc] at hl
      exact hE (List.length_eq_zero.mp hl)
    have b1 : (filterRange S1 s e).isEmpty = false := by
      cases hb : (filterRange S1 s e).isEmpty
      · rfl
      · exact absurd (List.isEmpty_iff.mp hb) hE
    have b2 : (filterRange S2 s e).isEmpty = false := by
      cases hb : (filterRange S2 s e).isEmpty
      · rfl
      · exact absurd (List.isEmpty_iff.mp hb) hE2
    unfold get
    simp only [b1, b2, Bool.false_eq_true, if_false, ← hpairs, hmain]

/-- C10 witness: two one-record stores that differ only in the sentiment of
an observation dated inside the range but on no session (date 4, sessions
being 3 and 5) produce the same output. -/
theorem off_session_observations_inert_witness :
    get [(⟨"AAAAAAAAA", 4, 1, 1⟩ : Obs)] 1 [3, 5] 1 10 =
      get [(⟨"AAAAAAAAA", 4, 2, 1⟩ : Obs)] 1 [3, 5] 1 10 :=
  off_session_observations_inert
    (List.Forall₂.cons ⟨rfl, rfl, Or.inr ⟨by decide, by decide, by decide⟩⟩
      List.Forall₂.nil)

/-- C3: in `RedditSentimentAlpha.get`'s alignment stage
(`pivot.reindex(trading_days).ffill(limit=5).fillna(0)`), pre-shift:
(a) a session holding an observation keeps its sentiment; (b) the last
known value is propagated forward across at most 5 consecutive unset
sessions; (c) a cell all of whose five predecessors and itself are unset —
beyond the decay horizon, or still-unset leading cells — reads 0.0.
In particular a security with one observation at session 1 and none
afterwards carries that value through sessions 2–6 and reads 0.0 from
session 7 on (sessions numbered from 1; see the witness). -/
theorem ffill_decay_horizon (df : List Obs) (td : List Nat) (c : String) :
    (∀ i v, (reindexCol df td c).getD i none = some v → alignedCell df td c i = v) ∧
    (∀ j i v, (reindexCol df td c).getD j none = some v →
      (∀ p, j < p → p ≤ i → (reindexCol df td c).getD p none = none) →
      j ≤ i → i ≤ j + 5 → i < td.length → alignedCell df td c i = v) ∧
    (∀ i, (∀ p, p ≤ i → i ≤ p + 5 → (reindexCol df td c).getD p none = none) →
      alignedCell df td c i = 0) := by
  refine ⟨?_, ?_, ?_⟩
  · intro i v h
    rw [alignedCell, ffillLimit, ffillGo_keep 5 _ none i v h]
    rfl
  · intro j i v hj hgap hji hij hilen
    have hlen : i < (reindexCol df td c).length := by
      simpa [reindexCol] using hilen
    rw [alignedCell, ffillLimit, ffillGo_propagate 5 _ none j i v hj hgap hji hij hlen]
    rfl
  · intro i h
    rw [alignedCell, ffillLimit, ffillGo_none 5 _ i none h (Or.inl rfl)]
    rfl

/-- C3 witness: one observation (sentiment 7) at session 1 of twelve
sessions — session 1 reads 7, session 6 still reads 7 (five forward-fills),
session 7 reads 0. -/
theorem ffill_decay_horizon_witness :
    alignedCell [⟨"AAAAAAAAA", 1, 7, 1⟩] [1, 2, 3, 4, 5, 6, 7, 8, 9, 10, 11, 12]
      "AAAAAAAAA" 0 = 7 ∧
    alignedCell [⟨"AAAAAAAAA", 1, 7, 1⟩] [1, 2, 3, 4, 5, 6, 7, 8, 9, 10, 11, 12]
      "AAAAAAAAA" 5 = 7 ∧
    alignedCell [⟨"AAAAAAAAA", 1, 7, 1⟩] [1, 2, 3, 4, 5, 6, 7, 8, 9, 10, 11, 12]
      "AAAAAAAAA" 6 = 0 :=
  ⟨(ffill_decay_horizon _ _ _).1 0 7 (by decide),
   (ffill_decay_horizon _ _ _).2.1 0 5 7 (by decide)
     (fun p hp1 hp2 => by interval_cases p <;> decide)
     (by decide) (by decide) (by decide),
   (ffill_decay_horizon _ _ _).2.2 6
     (fun p hp1 hp2 => by
       have h1 : 1 ≤ p := by omega
       interval_cases p <;> decide)⟩

/-- C1 counterexample: the start-independence law as claimed — any two
earlier start dates, any observation set — fails on the code.  With
sessions 1–20, observations for one security at dates 8 and 15, leverage 1,
and start dates 1 and 10 against end date 20, the two runs sliced to their
common session range differ by 5×10⁸ currency units in total (the date-8
observation forward-fills into the common window only for the longer run),
far above the claimed 1.0 bound. -/
theorem start_independence_counterexample :
    startEndDiff [⟨"AAAAAAAAA", 8, 1, 1⟩, ⟨"AAAAAAAAA", 15, 1, 1⟩] 1
        [1, 2, 3, 4, 5, 6, 7, 8, 9, 10, 11, 12, 13, 14, 15, 16, 17, 18, 19, 20]
        1 10 20 = some 500000000 ∧
    ¬((500000000 : ℚ) ≤ 1) := by
  constructor
  · rw [← startEndDiffE_eq]
    decide
  · norm_num

/-- C1 (amended): the start-independence law holds provided the extra
lookback window contains no observation — for a strictly ascending
calendar, start dates `s1 ≤ s2`, and an observation set with no record
dated in `[s1, s2)`, whenever both runs return matrices, slicing them to
their common session range gives a cell-wise absolute difference total of
at most 1.0 (the slices in fact agree exactly).  The counterexample forces
the no-gap-observations hypothesis: an observation in `[s1, s2)` can
forward-fill into the common window for the longer run only. -/
theorem start_independence_of_no_gap_observations
    {store : List Obs} {lev : ℚ} {cal : List Nat} {s1 s2 e : Nat} {v : ℚ}
    (hcal : List.Pairwise (· < ·) cal)
    (h12 : s1 ≤ s2)
    (hgap : ∀ o ∈ store, ¬(s1 ≤ o.date ∧ o.date < s2))
    (hv : startEndDiff store lev cal s1 s2 e = some v) :
    v ≤ 1 := by
  unfold startEndDiff at hv
  cases hg1 : get store lev cal s1 e with
  | error msg =>
      rw [hg1] at hv
      exact absurd hv (by simp)
  | ok M1 =>
      cases hg2 : get store lev cal s2 e with
      | error msg =>
          rw [hg1, hg2] at hv
          exact absurd hv (by simp)
      | ok M2 =>
          rw [hg1, hg2] at hv
          simp only [Option.some.injEq] at hv
          have hF12 : filterRange store s1 e = filterRange store s2 e :=
            filterRange_gap_eq h12 hgap
          suffices hz : totalAbsDiff M1 M2
              (max (idxMin M1.index) (idxMin M2.index))
              (min (idxMax M1.index) (idxMax M2.index)) = 0 by
            rw [← hv, hz]
            norm_num
          rcases get_eq_ok_iff.mp hg1 with ⟨hf1, hM1⟩ | ⟨hf1, -, htd1, hM1⟩ <;>
            rcases get_eq_ok_iff.mp hg2 with ⟨hf2, hM2⟩ | ⟨hf2, -, htd2, hM2⟩
          · subst hM1
            subst hM2
            exact totalAbsDiff_eq_zero fun d _ _ c => by
              rw [lookupCell_no_columns rfl, lookupCell_no_columns rfl]
          · rw [hF12] at hf1
            exact absurd hf1 hf2
          · rw [hF12] at hf1
            exact absurd hf2 hf1
          · subst hM1
            subst hM2
            rw [hF12]
            have hpre : ∀ x ∈ cal.filter (fun d => s1 ≤ d && decide (d < s2) && d ≤ e),
                x < s2 := by
              intro x hx
              have := (List.mem_filter.mp hx).2
              simp only [Bool.and_eq_true, decide_eq_true_eq] at this
              exact this.1.2
            have hF : ∀ o ∈ filterRange store s2 e, s2 ≤ o.date := by
              intro o ho
              rw [filterRange, List.mem_filter] at ho
              have := ho.2
              simp only [Bool.and_eq_true, decide_eq_true_eq] at this
              exact this.1
            have hsplit : tradingDays cal s1 e =
                cal.filter (fun d => s1 ≤ d && decide (d < s2) && d ≤ e) ++
                  tradingDays cal s2 e := tradingDays_split h12 hcal
            obtain ⟨m2, hm2eq, hm2mem⟩ := min?_spec htd2
            have hm2s2 : s2 ≤ m2 := (tradingDays_mem.mp hm2mem).2.1
            have hminM2 : idxMin (mainMatrix (filterRange store s2 e)
                (tradingDays cal s2 e) lev).index = m2 := by
              show idxMin (tradingDays cal s2 e) = m2
              rw [idxMin, hm2eq]
              rfl
            obtain ⟨junk, hjunklen, hjunk⟩ :=
              @mainMatrix_rows_append (filterRange store s2 e) s2 hF
                (cal.filter (fun d => s1 ≤ d && decide (d < s2) && d ≤ e))
                (tradingDays cal s2 e) hpre lev
            refine totalAbsDiff_eq_zero ?_
            intro d hdlo hdhi c
            have hds2 : s2 ≤ d := by
              have h1 : s2 ≤ idxMin (mainMatrix (filterRange store s2 e)
                  (tradingDays cal s2 e) lev).index := by
                rw [hminM2]
                exact hm2s2
              have h2 := le_max_right
                (idxMin (mainMatrix (filterRange store s2 e) (tradingDays cal s1 e) lev).index)
                (idxMin (mainMatrix (filterRange store s2 e) (tradingDays cal s2 e) lev).index)
              omega
            have hfind : ((mainMatrix (filterRange store s2 e) (tradingDays cal s1 e)
                  lev).index.zip (mainMatrix (filterRange store s2 e)
                  (tradingDays cal s1 e) lev).rows).find? (fun x => x.1 == d) =
                ((mainMatrix (filterRange store s2 e) (tradingDays cal s2 e)
                  lev).index.zip (mainMatrix (filterRange store s2 e)
                  (tradingDays cal s2 e) lev).rows).find? (fun x => x.1 == d) := by
              have hidx1 : (mainMatrix (filterRange store s2 e) (tradingDays cal s1 e)
                  lev).index = tradingDays cal s1 e := rfl
              have hidx2 : (mainMatrix (filterRange store s2 e) (tradingDays cal s2 e)
                  lev).index = tradingDays cal s2 e := rfl
              rw [hidx1, hidx2, hsplit, hjunk]
              exact find?_zip_append_skip hjunklen.symm
                (fun x hx => by have := hpre x hx; omega)
            rw [lookupCell, lookupCell, hfind]
            rfl

/-- C1 (amended) witness: one observation dated inside the common window
(date 15), calendar 1–20, start dates 1 and 10, end 20 — the experiment
returns a total difference of 0, within the 1.0 bound. -/
theorem start_independence_of_no_gap_observations_witness :
    startEndDiff [(⟨"AAAAAAAAA", 15, 1, 1⟩ : Obs)] 1
        [1, 2, 3, 4, 5, 6, 7, 8, 9, 10, 11, 12, 13, 14, 15, 16, 17, 18, 19, 20]
        1 10 20 = some 0 ∧ (0 : ℚ) ≤ 1 :=
  ⟨by rw [← startEndDiffE_eq]; decide,
   @start_independence_of_no_gap_observations
     [⟨"AAAAAAAAA", 15, 1, 1⟩] 1
     [1, 2, 3, 4, 5, 6, 7, 8, 9, 10, 11, 12, 13, 14, 15, 16, 17, 18, 19, 20]
     1 10 20 0
     (by decide) (by decide)
     (by
       intro o ho
       rw [List.mem_singleton] at ho
       subst ho
       decide)
     (by rw [← startEndDiffE_eq]; decide)⟩

end AlphaModel
